import Mathlib

/-!
Shallow embedding of the Coherent Point Drift EM engine from probreg/cpd.py,
together with theorems checking the natural-language specification against it.
Point sets are real matrices indexed by Fin; numpy operations are translated
operation by operation.  The external collaborators that are not part of the
sources (gauss_transform, math_utils, transformation) are modelled from the
specification and marked as such in their doc comments.
-/

noncomputable section

open Matrix Real

/-- Squared Euclidean distance between two d-dimensional points. -/
def sqDist {d : ℕ} (x y : Fin d → ℝ) : ℝ :=
  ∑ j, (x j - y j) ^ 2

/-- Embedding of the numpy broadcast product A * v for an array A and a
row vector v, scaling column j of A by v j; cpd.py uses this shape of
broadcast in expressions such as target_hat.T * pt1 and u * c. -/
def colScale {k l : ℕ} (A : Matrix (Fin k) (Fin l) ℝ) (v : Fin l → ℝ) :
    Matrix (Fin k) (Fin l) ℝ :=
  Matrix.of fun i j => A i j * v j

/-- Result record of the expectation step (namedtuple EstepResult in cpd.py):
pt1 has one entry per target point, p1 one per source point, px is N x D and
np is the total responsibility mass n_p. -/
structure EstepResult (m n d : ℕ) where
  pt1 : Fin m → ℝ
  p1 : Fin n → ℝ
  px : Matrix (Fin n) (Fin d) ℝ
  np : ℝ

/-- Result record of a maximization step (namedtuple MstepResult in cpd.py),
parameterized by the transformation type of the variant. -/
structure MstepResult (T : Type) where
  transformation : T
  sigma2 : ℝ
  q : ℝ

/-- Modelled from the spec: transformation.py is not part of the sources.
Section 6 describes the rigid variant as (rotation, translation, scale). -/
structure RigidTransformation (d : ℕ) where
  rot : Matrix (Fin d) (Fin d) ℝ
  t : Fin d → ℝ
  scale : ℝ

/-- Modelled from the spec: a rigid map applies x to scale * R * x + t on
every row of a point set (section 8, rigid exactness). -/
def RigidTransformation.transform {d n : ℕ} (tr : RigidTransformation d)
    (pts : Matrix (Fin n) (Fin d) ℝ) : Matrix (Fin n) (Fin d) ℝ :=
  Matrix.of fun i j => tr.scale * (tr.rot *ᵥ pts i) j + tr.t j

/-- Modelled from the spec: the affine variant carries a general linear map
and a translation. -/
structure AffineTransformation (d : ℕ) where
  b : Matrix (Fin d) (Fin d) ℝ
  t : Fin d → ℝ

/-- Modelled from the spec: an affine map applies x to B * x + t on every row. -/
def AffineTransformation.transform {d n : ℕ} (tr : AffineTransformation d)
    (pts : Matrix (Fin n) (Fin d) ℝ) : Matrix (Fin n) (Fin d) ℝ :=
  Matrix.of fun i j => (tr.b *ᵥ pts i) j + tr.t j

/-- Modelled from the spec: the non-rigid variant carries the smoothness
kernel matrix G and the displacement-coefficient matrix W. -/
structure NonRigidTransformation (n d : ℕ) where
  g : Matrix (Fin n) (Fin n) ℝ
  w : Matrix (Fin n) (Fin d) ℝ

/-- Modelled from the spec: gauss_transform.py is not part of the sources.
Section 6 specifies GaussTransform(reference, bandwidth).compute(query, weights)
as, for each query point, the sum over reference points of
weight * exp(-dist^2 / bandwidth^2). -/
def gaussTransform {k d : ℕ} (refs : Matrix (Fin k) (Fin d) ℝ) (h : ℝ)
    (weights : Fin k → ℝ) (query : Fin d → ℝ) : ℝ :=
  ∑ i, weights i * Real.exp (-sqDist query (refs i) / h ^ 2)

/-- Value of np.finfo(np.float32).eps, the float32 machine epsilon, used by
cpd.py to clamp exact-zero kernel sums. -/
def float32Eps : ℝ :=
  2 ^ (-(23 : ℤ))

/-- Smallest representable positive float32 (the least positive subnormal),
the constant named by the specification sentence on zero clamping. -/
def float32SmallestPos : ℝ :=
  2 ^ (-(149 : ℤ))

/-- Outlier-mixture constant c of the expectation step, from cpd.py lines
44 and 45: c = (2 pi sigma2)^(ndim/2) * w/(1-w) * N/M. -/
def outlierConstant (d n m : ℕ) (sigma2 w : ℝ) : ℝ :=
  (2 * π * sigma2) ^ ((d : ℝ) * 0.5) * (w / (1 - w)) * n / m

/-- Gaussian kernel sums kt1 of the expectation step (cpd.py line 47):
the kernel transform with reference set t_source and bandwidth sqrt(2 sigma2),
evaluated at every target point with unit weights. -/
def kt1 {n m d : ℕ} (tSource : Matrix (Fin n) (Fin d) ℝ)
    (target : Matrix (Fin m) (Fin d) ℝ) (sigma2 : ℝ) : Fin m → ℝ :=
  fun j => gaussTransform tSource (Real.sqrt (2 * sigma2)) (fun _ => 1) (target j)

/-- Zero clamping of cpd.py line 48: entries of kt1 that are exactly zero are
replaced by the float32 machine epsilon. -/
def kt1Clamped {n m d : ℕ} (tSource : Matrix (Fin n) (Fin d) ℝ)
    (target : Matrix (Fin m) (Fin d) ℝ) (sigma2 : ℝ) : Fin m → ℝ :=
  fun j => if kt1 tSource target sigma2 j = 0 then float32Eps else kt1 tSource target sigma2 j

/-- Expectation step of CoherentPointDrift (cpd.py lines 37 to 54). -/
def expectationStep {n m d : ℕ} (tSource : Matrix (Fin n) (Fin d) ℝ)
    (target : Matrix (Fin m) (Fin d) ℝ) (sigma2 w : ℝ) : EstepResult m n d :=
  let h := Real.sqrt (2 * sigma2)
  let c := outlierConstant d n m sigma2 w
  let a : Fin m → ℝ := fun j => 1 / (kt1Clamped tSource target sigma2 j + c)
  { pt1 := fun j => 1 - c * a j
    p1 := fun i => gaussTransform target h a (tSource i)
    px := Matrix.of fun i r => gaussTransform target h (fun j => a j * target j r) (tSource i)
    np := ∑ i, gaussTransform target h a (tSource i) }

/-- Modelled from the spec: math_utils.msn_all_combination is not part of the
sources.  Section 4.1 specifies the initial variance as the sum of all pairwise
squared source-target distances divided by (D * N * M). -/
def msnAllCombination {n m d : ℕ} (source : Matrix (Fin n) (Fin d) ℝ)
    (target : Matrix (Fin m) (Fin d) ℝ) : ℝ :=
  (∑ i, ∑ j, sqDist (source i) (target j)) / ((d : ℝ) * n * m)

/-- Modelled from the spec: math_utils.gaussian_kernel is not part of the
sources.  Sections 4.3 and the glossary specify a symmetric positive
semi-definite Gaussian smoothness kernel built from the source with width beta. -/
def gaussianKernel {n d : ℕ} (source : Matrix (Fin n) (Fin d) ℝ) (beta : ℝ) :
    Matrix (Fin n) (Fin n) ℝ :=
  Matrix.of fun i j => Real.exp (-sqDist (source i) (source j) / (2 * beta ^ 2))

/-- Target-side weighted centroid mu_x of the maximization steps
(cpd.py lines 92 and 128): sum of px rows divided by n_p. -/
def muX {m n d : ℕ} (e : EstepResult m n d) : Fin d → ℝ :=
  fun j => (∑ i, e.px i j) / e.np

/-- Source-side weighted centroid mu_y (cpd.py lines 93 and 129):
source transposed times p1, divided by n_p. -/
def muY {m n d : ℕ} (source : Matrix (Fin n) (Fin d) ℝ) (e : EstepResult m n d) :
    Fin d → ℝ :=
  fun j => (∑ i, source i j * e.p1 i) / e.np

/-- Centered target points target - mu_x (cpd.py lines 94 and 130). -/
def targetHat {m n d : ℕ} (target : Matrix (Fin m) (Fin d) ℝ) (e : EstepResult m n d) :
    Matrix (Fin m) (Fin d) ℝ :=
  Matrix.of fun i j => target i j - muX e j

/-- Centered source points source - mu_y (cpd.py lines 95 and 131). -/
def sourceHat {m n d : ℕ} (source : Matrix (Fin n) (Fin d) ℝ) (e : EstepResult m n d) :
    Matrix (Fin n) (Fin d) ℝ :=
  Matrix.of fun i j => source i j - muY source e j

/-- Cross-covariance matrix a of the maximization steps (cpd.py lines 96 and
132): px transposed times the centered source, minus the outer product of mu_x
with p1 transposed times the centered source. -/
def crossCovA {m n d : ℕ} (source : Matrix (Fin n) (Fin d) ℝ) (e : EstepResult m n d) :
    Matrix (Fin d) (Fin d) ℝ :=
  e.pxᵀ * sourceHat source e - vecMulVec (muX e) (e.p1 ᵥ* sourceHat source e)

/-- Scatter matrix yp1y of the affine step (cpd.py line 133), whose trace is
tr_yp1y of the rigid step (cpd.py line 102). -/
def yp1y {m n d : ℕ} (source : Matrix (Fin n) (Fin d) ℝ) (e : EstepResult m n d) :
    Matrix (Fin d) (Fin d) ℝ :=
  colScale (sourceHat source e)ᵀ e.p1 * sourceHat source e

/-- Weighted target scatter tr_xp1x of the rigid and affine steps
(cpd.py lines 105 and 136), computed from the centered target. -/
def trXp1xHat {m n d : ℕ} (target : Matrix (Fin m) (Fin d) ℝ) (e : EstepResult m n d) : ℝ :=
  (colScale (targetHat target e)ᵀ e.pt1 * targetHat target e).trace

/-- Reflection-correcting vector c of the rigid step (cpd.py lines 98 and 99):
all ones except that the last entry is the determinant of u * vh. -/
def reflectionVec {d : ℕ} (u vh : Matrix (Fin (d + 1)) (Fin (d + 1)) ℝ) :
    Fin (d + 1) → ℝ :=
  fun j => if j = Fin.last d then (u * vh).det else 1

/-- Rotation matrix of the rigid step (cpd.py line 100): the numpy broadcast
u * c scales the columns of u by c, and the result is multiplied by vh. -/
def rigidRotation {d : ℕ} (u vh : Matrix (Fin (d + 1)) (Fin (d + 1)) ℝ) :
    Matrix (Fin (d + 1)) (Fin (d + 1)) ℝ :=
  colScale u (reflectionVec u vh) * vh

/-- Rigid maximization step (cpd.py lines 88 to 109).  np.linalg.svd is an
external numpy routine, so it enters the embedding as an oracle argument
producing the pair (u, vh); its defining property, orthogonality of both
factors, is a hypothesis of the theorems that need it.  The sigma2P argument
mirrors the unused sigma2_p parameter of the Python staticmethod. -/
def RigidCPD.maximizationStep {m n d : ℕ}
    (svd : Matrix (Fin (d + 1)) (Fin (d + 1)) ℝ →
      Matrix (Fin (d + 1)) (Fin (d + 1)) ℝ × Matrix (Fin (d + 1)) (Fin (d + 1)) ℝ)
    (source : Matrix (Fin n) (Fin (d + 1)) ℝ) (target : Matrix (Fin m) (Fin (d + 1)) ℝ)
    (e : EstepResult m n (d + 1)) (sigma2P : ℝ) : MstepResult (RigidTransformation (d + 1)) :=
  let a := crossCovA source e
  let u := (svd a).1
  let vh := (svd a).2
  let rot := rigidRotation u vh
  let trAtr := (aᵀ * rot).trace
  let trYp1y := (yp1y source e).trace
  let scale := trAtr / trYp1y
  let t := fun j => muX e j - scale * (rot *ᵥ muY source e) j
  let trXp1x := trXp1xHat target e
  let sigma2 := (trXp1x - scale * trAtr) / (e.np * ((d : ℝ) + 1))
  let q := (trXp1x - 2 * scale * trAtr + scale ^ 2 * trYp1y) / (2 * sigma2) +
    ((d : ℝ) + 1) * e.np * 0.5 * Real.log sigma2
  ⟨⟨rot, t, scale⟩, sigma2, q⟩

/-- Affine maximization step (cpd.py lines 124 to 142).  The call
np.linalg.solve(yp1y.T, a.T).T is embedded as the transpose of the inverse of
yp1y transposed times a transposed, which agrees with numpy whenever the
system matrix is invertible (numpy raises on a singular matrix).  The sigma2P
argument mirrors the unused sigma2_p parameter. -/
def AffineCPD.maximizationStep {m n d : ℕ}
    (source : Matrix (Fin n) (Fin d) ℝ) (target : Matrix (Fin m) (Fin d) ℝ)
    (e : EstepResult m n d) (sigma2P : ℝ) : MstepResult (AffineTransformation d) :=
  let a := crossCovA source e
  let b := ((yp1y source e)ᵀ⁻¹ * aᵀ)ᵀ
  let t := fun j => muX e j - (b *ᵥ muY source e) j
  let trXp1x := trXp1xHat target e
  let trXpyb := (a * bᵀ).trace
  let sigma2 := (trXp1x - trXpyb) / (e.np * (d : ℝ))
  let trAb := (a * bᵀ).trace
  let q := (trXp1x - 2 * trAb + trXpyb) / (2 * sigma2) +
    (d : ℝ) * e.np * 0.5 * Real.log sigma2
  ⟨⟨b, t⟩, sigma2, q⟩

/-- Right-hand side d * px - source of the non-rigid solve as cpd.py line 175
actually computes it: dp1_inv is the full N x N matrix np.diag(1/p1) and the
numpy product dp1_inv * px is elementwise, which is only defined when px is
N x N as well (otherwise numpy raises a broadcast error), and zeroes every
off-diagonal contribution of px. -/
def nonRigidRhsCode {m n : ℕ} (source : Matrix (Fin n) (Fin n) ℝ)
    (e : EstepResult m n n) : Matrix (Fin n) (Fin n) ℝ :=
  Matrix.of fun i j => (if i = j then 1 / e.p1 i else 0) * e.px i j - source i j

/-- Non-rigid maximization step (cpd.py lines 170 to 181), embedded for the
only shape numpy accepts (square px, see nonRigidRhsCode).  np.linalg.solve
is embedded through the matrix inverse, agreeing with numpy whenever the
system matrix is invertible. -/
def NonRigidCPD.maximizationStep {m n : ℕ}
    (source : Matrix (Fin n) (Fin n) ℝ) (target : Matrix (Fin m) (Fin n) ℝ)
    (e : EstepResult m n n) (sigma2P : ℝ) (g : Matrix (Fin n) (Fin n) ℝ) (lmd : ℝ) :
    MstepResult (NonRigidTransformation n n) :=
  let dp1Inv := Matrix.diagonal fun i => 1 / e.p1 i
  let w := (g + (lmd * sigma2P) • dp1Inv)⁻¹ * nonRigidRhsCode source e
  let t := source + g * w
  let trXp1x := (colScale targetᵀ e.pt1 * target).trace
  let trPxt := (e.pxᵀ * t).trace
  let trTp1t := (colScale tᵀ e.p1 * t).trace
  let sigma2 := (trXp1x - 2 * trPxt + trTp1t) / (e.np * (n : ℝ))
  ⟨⟨g, w⟩, sigma2, sigma2⟩

/-- Displacement coefficients W as claim C2 and spec section 4.3 state them:
the solution of (G + lambda sigma2_prev diag(1/p1)) W = diag(1/p1) px - source,
with diag(1/p1) px the matrix product scaling row i of px by 1/p1 i.  This
definition follows the claim text and is compared against the code embedding. -/
def nonRigidWSpec {m n : ℕ} (source : Matrix (Fin n) (Fin n) ℝ)
    (e : EstepResult m n n) (sigma2P : ℝ) (g : Matrix (Fin n) (Fin n) ℝ) (lmd : ℝ) :
    Matrix (Fin n) (Fin n) ℝ :=
  let dp1Inv := Matrix.diagonal fun i => 1 / e.p1 i
  (g + (lmd * sigma2P) • dp1Inv)⁻¹ * (dp1Inv * e.px - source)

/-- Iteration loop of CoherentPointDrift.registration (cpd.py lines 68 to 74):
run at most a given number of steps, exiting as soon as the change of the
objective q drops below tol; the bookkeeping variable q is updated only when
the loop continues, exactly as in the Python code. -/
def cpdLoop {T : Type} (step : MstepResult T → MstepResult T) (tol : ℝ) :
    ℕ → MstepResult T → ℝ → MstepResult T
  | 0, res, _ => res
  | k + 1, res, q =>
    let res1 := step res
    if |res1.q - q| < tol then res1 else cpdLoop step tol k res1 res1.q

/-- Number of loop bodies (one expectation step and one maximization step
each) that cpdLoop executes on the same arguments. -/
def cpdIterCount {T : Type} (step : MstepResult T → MstepResult T) (tol : ℝ) :
    ℕ → MstepResult T → ℝ → ℕ
  | 0, _, _ => 0
  | k + 1, res, q =>
    let res1 := step res
    if |res1.q - q| < tol then 1 else 1 + cpdIterCount step tol k res1 res1.q

/-- Initializer of the rigid variant (cpd.py lines 82 to 86): identity
rotation, zero translation, unit scale (the default scale of the
transformation collaborator, modelled from spec section 4.1), variance from
msn_all_combination and q = 1 + M * ndim * 0.5 * log sigma2. -/
def RigidCPD.initialEstimate {n m d : ℕ} (source : Matrix (Fin n) (Fin (d + 1)) ℝ)
    (target : Matrix (Fin m) (Fin (d + 1)) ℝ) : MstepResult (RigidTransformation (d + 1)) :=
  let sigma2 := msnAllCombination source target
  ⟨⟨1, fun _ => 0, 1⟩, sigma2, 1 + (m : ℝ) * ((d : ℝ) + 1) * 0.5 * Real.log sigma2⟩

/-- One body of the registration loop for the rigid variant (cpd.py lines 69
to 71): transform the source with the current estimate, run the expectation
step with the current variance, run the maximization step passing the current
variance as sigma2_p. -/
def RigidCPD.registrationStep {n m d : ℕ}
    (svd : Matrix (Fin (d + 1)) (Fin (d + 1)) ℝ →
      Matrix (Fin (d + 1)) (Fin (d + 1)) ℝ × Matrix (Fin (d + 1)) (Fin (d + 1)) ℝ)
    (source : Matrix (Fin n) (Fin (d + 1)) ℝ) (target : Matrix (Fin m) (Fin (d + 1)) ℝ)
    (w : ℝ) (res : MstepResult (RigidTransformation (d + 1))) :
    MstepResult (RigidTransformation (d + 1)) :=
  RigidCPD.maximizationStep svd source target
    (expectationStep (res.transformation.transform source) target res.sigma2 w) res.sigma2

/-- Registration driver for the rigid variant (cpd.py lines 63 to 75). -/
def RigidCPD.registration {n m d : ℕ}
    (svd : Matrix (Fin (d + 1)) (Fin (d + 1)) ℝ →
      Matrix (Fin (d + 1)) (Fin (d + 1)) ℝ × Matrix (Fin (d + 1)) (Fin (d + 1)) ℝ)
    (source : Matrix (Fin n) (Fin (d + 1)) ℝ) (target : Matrix (Fin m) (Fin (d + 1)) ℝ)
    (w : ℝ) (maxIteration : ℕ) (tol : ℝ) : MstepResult (RigidTransformation (d + 1)) :=
  let res := RigidCPD.initialEstimate source target
  cpdLoop (RigidCPD.registrationStep svd source target w) tol maxIteration res res.q

/-- State of a NonRigidCPD instance (cpd.py lines 145 to 157): the held
source (None until set), kernel width beta, regularization weight lmd, and
the cached smoothness kernel matrix g (None until a source is set).  The
number of source points may change between set_source calls, hence the
sigma-packed point sets. -/
structure NonRigidCPDState (d : ℕ) where
  source : Option (Σ n : ℕ, Matrix (Fin n) (Fin d) ℝ)
  beta : ℝ
  lmd : ℝ
  g : Option (Σ n : ℕ, Matrix (Fin n) (Fin n) ℝ)

/-- Constructor of NonRigidCPD (cpd.py lines 146 to 153): stores source, beta
and lmd, and when the source is not None computes g = gaussian_kernel(source,
beta). -/
def NonRigidCPD.init {d : ℕ} (source : Option (Σ n : ℕ, Matrix (Fin n) (Fin d) ℝ))
    (beta lmd : ℝ) : NonRigidCPDState d :=
  { source := source, beta := beta, lmd := lmd
    g := source.map fun s => ⟨s.1, gaussianKernel s.2 beta⟩ }

/-- NonRigidCPD.set_source (cpd.py lines 155 to 157): stores the new source
and recomputes g = gaussian_kernel(source, beta). -/
def NonRigidCPD.setSource {d : ℕ} (st : NonRigidCPDState d)
    (source : Σ n : ℕ, Matrix (Fin n) (Fin d) ℝ) : NonRigidCPDState d :=
  { st with source := some source, g := some ⟨source.1, gaussianKernel source.2 st.beta⟩ }

/-- Any finite sequence of set_source calls applied to a state. -/
def NonRigidCPD.applySetSources {d : ℕ} (st : NonRigidCPDState d)
    (sources : List (Σ n : ℕ, Matrix (Fin n) (Fin d) ℝ)) : NonRigidCPDState d :=
  sources.foldl NonRigidCPD.setSource st

/-- Kinds of Python exception relevant to the registration entry point:
ValueError (the invalid-argument error of cpd.py line 193), the
AssertionError of the shape assert at cpd.py line 41, and the IndexError
raised by reading shape[1] of a one-dimensional array. -/
inductive PyError
  | valueError
  | assertionError
  | indexError
deriving DecidableEq

/-- A numpy point array as the registration entry point receives it, retaining
the dimensionality that np.asarray would report: a flat (one-dimensional)
array or a rectangular two-dimensional array. -/
inductive NpPoints
  | dim1 (v : List ℝ)
  | dim2 (rows : List (List ℝ))

/-- Value of arr.ndim for the two array shapes. -/
def NpPoints.ndim : NpPoints → ℕ
  | .dim1 _ => 1
  | .dim2 _ => 2

/-- Variant tags selected by the dispatch of registration_cpd. -/
inductive CpdVariantTag
  | rigid
  | affine
  | nonrigid
deriving DecidableEq

/-- Dispatch of registration_cpd (cpd.py lines 186 to 193): the three
recognized names select a variant and any other name raises ValueError. -/
def dispatchTfType (name : String) : Except PyError CpdVariantTag :=
  if name = "rigid" then .ok .rigid
  else if name = "affine" then .ok .affine
  else if name = "nonrigid" then .ok .nonrigid
  else .error .valueError

/-- Reading arr.shape[1], as _initialize does on the source (cpd.py line 83):
a one-dimensional array has a shape tuple of length one, so the read raises
IndexError; a two-dimensional array yields its row width. -/
def npShapeSnd : NpPoints → Except PyError ℕ
  | .dim1 _ => .error .indexError
  | .dim2 rows => .ok (rows.headD []).length

/-- The assert of expectation_step (cpd.py line 41), executed inside every
loop iteration on the transformed source and the target: both arrays must be
two-dimensional, otherwise AssertionError is raised. -/
def estepAssertFlow (tSource target : NpPoints) : Except PyError Unit :=
  if tSource.ndim = 2 ∧ target.ndim = 2 then .ok () else .error .assertionError

/-- Error flow of the iteration phase of registration (cpd.py lines 68 to 74):
each executed iteration first runs the expectation-step assert (the
transformation collaborator preserves the array shape of the source, so the
transformed source has the shape of the source).  The numeric content of the
iterations is abstracted away: it raises none of the modelled errors, and an
early convergence exit only skips repetitions of the identical assert, so it
cannot change which error the phase produces. -/
def registrationIterFlow (source target : NpPoints) : ℕ → Except PyError Unit
  | 0 => .ok ()
  | k + 1 => do
    estepAssertFlow source target
    registrationIterFlow source target k

/-- Error flow of registration_cpd (cpd.py lines 184 to 195): dispatch on the
variant name, then _initialize reads source.shape[1] (the remaining numeric
work of the initializer is modelled from spec section 4.1 as raising no
errors), then the iteration phase runs. -/
def registrationCpdFlow (name : String) (source target : NpPoints)
    (maxIteration : ℕ) : Except PyError Unit := do
  let _ ← dispatchTfType name
  let _ ← npShapeSnd source
  registrationIterFlow source target maxIteration

/-- One-point one-dimensional source fixture used by witnesses. -/
def onePt : Matrix (Fin 1) (Fin 1) ℝ := !![0]

/-- One-point one-dimensional target fixture used by witnesses. -/
def onePt1 : Matrix (Fin 1) (Fin 1) ℝ := !![1]

/-- Empty point set (zero reference points) of dimensionality one. -/
def noPts : Matrix (Fin 0) (Fin 1) ℝ := Matrix.of fun _ _ => 0

/-- Concrete expectation-step record on one source and one target point. -/
def oneEstep : EstepResult 1 1 1 := ⟨fun _ => 1, fun _ => 1, !![1], 1⟩

/-- Degenerate singular-value-decomposition oracle returning identity factors,
used to instantiate theorems quantified over the oracle. -/
def idSvd : Matrix (Fin 1) (Fin 1) ℝ → Matrix (Fin 1) (Fin 1) ℝ × Matrix (Fin 1) (Fin 1) ℝ :=
  fun _ => (1, 1)

/-- Concrete expectation-step record on two source and two target points of
dimensionality two, with an off-diagonal px entry. -/
def twoEstep : EstepResult 2 2 2 := ⟨fun _ => 1, fun _ => 1, !![1, 2; 3, 4], 2⟩

theorem colScale_eq_mul_diagonal {k l : ℕ} (A : Matrix (Fin k) (Fin l) ℝ) (v : Fin l → ℝ) :
    colScale A v = A * Matrix.diagonal v := by
  ext i j
  simp [colScale, Matrix.mul_diagonal]

theorem reflectionVec_sq {d : ℕ} (u vh : Matrix (Fin (d + 1)) (Fin (d + 1)) ℝ)
    (hu : u * uᵀ = 1) (hv : vh * vhᵀ = 1) (j : Fin (d + 1)) :
    reflectionVec u vh j * reflectionVec u vh j = 1 := by
  have hdu : u.det * u.det = 1 := by
    have h := congrArg Matrix.det hu
    simpa [Matrix.det_mul, Matrix.det_transpose] using h
  have hdv : vh.det * vh.det = 1 := by
    have h := congrArg Matrix.det hv
    simpa [Matrix.det_mul, Matrix.det_transpose] using h
  by_cases hj : j = Fin.last d
  · have hring : (u.det * vh.det) * (u.det * vh.det)
        = (u.det * u.det) * (vh.det * vh.det) := by ring
    simp only [reflectionVec, hj, eq_self_iff_true, if_true, Matrix.det_mul]
    rw [hring, hdu, hdv, one_mul]
  · simp [reflectionVec, hj]

theorem rigidRotation_proper {d : ℕ} (u vh : Matrix (Fin (d + 1)) (Fin (d + 1)) ℝ)
    (hu : u * uᵀ = 1) (hv : vh * vhᵀ = 1) :
    rigidRotation u vh * (rigidRotation u vh)ᵀ = 1 ∧ (rigidRotation u vh).det = 1 := by
  have hdu : u.det * u.det = 1 := by
    have h := congrArg Matrix.det hu
    simpa [Matrix.det_mul, Matrix.det_transpose] using h
  have hdv : vh.det * vh.det = 1 := by
    have h := congrArg Matrix.det hv
    simpa [Matrix.det_mul, Matrix.det_transpose] using h
  have hDD : Matrix.diagonal (reflectionVec u vh) * Matrix.diagonal (reflectionVec u vh) = 1 := by
    rw [Matrix.diagonal_mul_diagonal]
    have hfun : (fun j => reflectionVec u vh j * reflectionVec u vh j) = fun _ => (1 : ℝ) :=
      funext (reflectionVec_sq u vh hu hv)
    rw [hfun, Matrix.diagonal_one]
  have hrot : rigidRotation u vh = u * Matrix.diagonal (reflectionVec u vh) * vh := by
    rw [rigidRotation, colScale_eq_mul_diagonal]
  constructor
  · rw [hrot]
    calc u * Matrix.diagonal (reflectionVec u vh) * vh *
          (u * Matrix.diagonal (reflectionVec u vh) * vh)ᵀ
        = u * (Matrix.diagonal (reflectionVec u vh) * ((vh * vhᵀ) *
            (Matrix.diagonal (reflectionVec u vh) * uᵀ))) := by
          simp only [Matrix.transpose_mul, Matrix.diagonal_transpose, Matrix.mul_assoc]
      _ = u * (Matrix.diagonal (reflectionVec u vh) *
            (Matrix.diagonal (reflectionVec u vh) * uᵀ)) := by rw [hv, Matrix.one_mul]
      _ = u * uᵀ := by rw [← Matrix.mul_assoc (Matrix.diagonal (reflectionVec u vh)), hDD,
            Matrix.one_mul]
      _ = 1 := hu
  · rw [hrot]
    have hdetD : (Matrix.diagonal (reflectionVec u vh)).det = u.det * vh.det := by
      rw [Matrix.det_diagonal]
      have : (∏ j, reflectionVec u vh j) = (u * vh).det := by
        rw [show (fun j => reflectionVec u vh j) = fun j =>
          if j = Fin.last d then (u * vh).det else 1 from rfl]
        rw [Finset.prod_ite_eq' Finset.univ (Fin.last d) fun _ => (u * vh).det]
        simp
      rw [this, Matrix.det_mul]
    rw [Matrix.det_mul, Matrix.det_mul, hdetD]
    have hring : u.det * (u.det * vh.det) * vh.det = (u.det * u.det) * (vh.det * vh.det) := by
      ring
    rw [hring, hdu, hdv, one_mul]

theorem cpdLoop_preserves {T : Type} (P : MstepResult T → Prop)
    (step : MstepResult T → MstepResult T) (tol : ℝ) (hstep : ∀ r, P (step r)) :
    ∀ (k : ℕ) (res : MstepResult T) (q : ℝ), P res → P (cpdLoop step tol k res q)
  | 0, _, _, h => h
  | k + 1, res, q, h => by
    rw [cpdLoop]
    show P (if |(step res).q - q| < tol then step res else cpdLoop step tol k (step res) (step res).q)
    split
    · exact hstep res
    · exact cpdLoop_preserves P step tol hstep k (step res) _ (hstep res)

/-- C1: the rotation returned by the rigid maximization step, built as
U * diag(1, ..., 1, det(U Vh)) * Vh from orthogonal SVD factors of the
cross-covariance matrix, satisfies R Rt = 1 and det R = 1 (the code stores
det(U Vh), which equals its sign for orthogonal factors); consequently the
rotation component of every MstepResult the rigid registration driver
produces, across all iterations, is a proper rotation. -/
theorem cpd_c1_rigid_rotation_is_proper {m n d : ℕ}
    (svd : Matrix (Fin (d + 1)) (Fin (d + 1)) ℝ →
      Matrix (Fin (d + 1)) (Fin (d + 1)) ℝ × Matrix (Fin (d + 1)) (Fin (d + 1)) ℝ)
    (source : Matrix (Fin n) (Fin (d + 1)) ℝ) (target : Matrix (Fin m) (Fin (d + 1)) ℝ)
    (e : EstepResult m n (d + 1)) (sigma2P w tol : ℝ) (maxIteration : ℕ)
    (hsvd : ∀ A, (svd A).1 * (svd A).1ᵀ = 1 ∧ (svd A).2 * (svd A).2ᵀ = 1) :
    (∀ u vh : Matrix (Fin (d + 1)) (Fin (d + 1)) ℝ, u * uᵀ = 1 → vh * vhᵀ = 1 →
      rigidRotation u vh * (rigidRotation u vh)ᵀ = 1 ∧ (rigidRotation u vh).det = 1)
    ∧ (RigidCPD.maximizationStep svd source target e sigma2P).transformation.rot
        = rigidRotation (svd (crossCovA source e)).1 (svd (crossCovA source e)).2
    ∧ ((RigidCPD.registration svd source target w maxIteration tol).transformation.rot *
          ((RigidCPD.registration svd source target w maxIteration tol).transformation.rot)ᵀ = 1
        ∧ ((RigidCPD.registration svd source target w maxIteration tol).transformation.rot).det
            = 1) := by
  refine ⟨fun u vh hu hv => rigidRotation_proper u vh hu hv, rfl, ?_⟩
  have hstep : ∀ r : MstepResult (RigidTransformation (d + 1)),
      (RigidCPD.registrationStep svd source target w r).transformation.rot *
        ((RigidCPD.registrationStep svd source target w r).transformation.rot)ᵀ = 1 ∧
      ((RigidCPD.registrationStep svd source target w r).transformation.rot).det = 1 := by
    intro r
    exact rigidRotation_proper _ _ (hsvd _).1 (hsvd _).2
  have hinit : (RigidCPD.initialEstimate source target).transformation.rot *
        ((RigidCPD.initialEstimate source target).transformation.rot)ᵀ = 1 ∧
      ((RigidCPD.initialEstimate source target).transformation.rot).det = 1 := by
    constructor
    · show (1 : Matrix (Fin (d + 1)) (Fin (d + 1)) ℝ) * (1 : _)ᵀ = 1
      simp
    · show (1 : Matrix (Fin (d + 1)) (Fin (d + 1)) ℝ).det = 1
      simp
  exact cpdLoop_preserves
    (fun r => r.transformation.rot * (r.transformation.rot)ᵀ = 1 ∧ (r.transformation.rot).det = 1)
    (RigidCPD.registrationStep svd source target w) tol hstep maxIteration
    (RigidCPD.initialEstimate source target) (RigidCPD.initialEstimate source target).q hinit

/-- Witness for C1: the theorem applied at a concrete one-point registration
with the identity SVD oracle. -/
theorem cpd_c1_witness :
    (RigidCPD.registration idSvd onePt onePt1 0 1 (1 / 100)).transformation.rot *
        ((RigidCPD.registration idSvd onePt onePt1 0 1 (1 / 100)).transformation.rot)ᵀ = 1
      ∧ ((RigidCPD.registration idSvd onePt onePt1 0 1 (1 / 100)).transformation.rot).det = 1 :=
  (cpd_c1_rigid_rotation_is_proper idSvd onePt onePt1 oneEstep 1 0 (1 / 100) 1
    (fun A => ⟨by simp [idSvd], by simp [idSvd]⟩)).2.2

theorem cpdIterCount_le {T : Type} (step : MstepResult T → MstepResult T) (tol : ℝ) :
    ∀ (k : ℕ) (res : MstepResult T) (q : ℝ), cpdIterCount step tol k res q ≤ k
  | 0, _, _ => le_refl 0
  | k + 1, res, q => by
    rw [cpdIterCount]
    show (if |(step res).q - q| < tol then 1
      else 1 + cpdIterCount step tol k (step res) (step res).q) ≤ k + 1
    split
    · omega
    · have h := cpdIterCount_le step tol k (step res) (step res).q
      omega

/-- C4: with max_iteration = 0 the rigid registration driver returns exactly
the initializer's MstepResult (identity transformation, sigma2 from the
pairwise-distance mean, q = 1 + M * D / 2 * log sigma2) and executes zero
expectation or maximization steps, and for every budget the loop executes at
most max_iteration iterations; the loop is a total function, so reaching the
cap simply returns the last result. -/
theorem cpd_c4_driver_budget {n m d : ℕ}
    (svd : Matrix (Fin (d + 1)) (Fin (d + 1)) ℝ →
      Matrix (Fin (d + 1)) (Fin (d + 1)) ℝ × Matrix (Fin (d + 1)) (Fin (d + 1)) ℝ)
    (source : Matrix (Fin n) (Fin (d + 1)) ℝ) (target : Matrix (Fin m) (Fin (d + 1)) ℝ)
    (w tol : ℝ) :
    RigidCPD.registration svd source target w 0 tol = RigidCPD.initialEstimate source target
    ∧ RigidCPD.initialEstimate source target =
        ⟨⟨1, fun _ => 0, 1⟩, msnAllCombination source target,
          1 + (m : ℝ) * ((d : ℝ) + 1) * 0.5 * Real.log (msnAllCombination source target)⟩
    ∧ (∀ (k : ℕ) (res : MstepResult (RigidTransformation (d + 1))) (q : ℝ),
        cpdIterCount (RigidCPD.registrationStep svd source target w) tol k res q ≤ k)
    ∧ cpdIterCount (RigidCPD.registrationStep svd source target w) tol 0
        (RigidCPD.initialEstimate source target) (RigidCPD.initialEstimate source target).q = 0 :=
  ⟨rfl, rfl, fun k res q => cpdIterCount_le _ tol k res q, rfl⟩

/-- C5: in the affine maximization step the two cross terms of the objective
are the same quantity trace(A * B transposed), so the objective equals
(tr_XP1X - tr_AB) / (2 sigma2_new) + D n_p / 2 log(sigma2_new) with
sigma2_new = (tr_XP1X - tr_AB) / (n_p D). -/
theorem cpd_c5_affine_cross_terms {m n d : ℕ} (source : Matrix (Fin n) (Fin d) ℝ)
    (target : Matrix (Fin m) (Fin d) ℝ) (e : EstepResult m n d) (sigma2P : ℝ) :
    (AffineCPD.maximizationStep source target e sigma2P).sigma2
        = (trXp1xHat target e
            - (crossCovA source e *
                ((AffineCPD.maximizationStep source target e sigma2P).transformation.b)ᵀ).trace)
          / (e.np * (d : ℝ))
    ∧ (AffineCPD.maximizationStep source target e sigma2P).q
        = (trXp1xHat target e
            - (crossCovA source e *
                ((AffineCPD.maximizationStep source target e sigma2P).transformation.b)ᵀ).trace)
          / (2 * (AffineCPD.maximizationStep source target e sigma2P).sigma2)
          + (d : ℝ) * e.np * 0.5 *
            Real.log ((AffineCPD.maximizationStep source target e sigma2P).sigma2) := by
  constructor
  · rfl
  · have h : ∀ x t s L : ℝ, (x - 2 * t + t) / (2 * s) + L = (x - t) / (2 * s) + L := by
      intro x t s L
      ring_nf
    exact h _ _ _ _

theorem nonRigidW_g0_eval (s : ℝ) (hs : s ≠ 0) :
    (NonRigidCPD.maximizationStep onePt onePt1 oneEstep s 0 1).transformation.w 0 0 = s⁻¹ := by
  have hfun : (fun i : Fin 1 => 1 / oneEstep.p1 i) = fun _ => (1 : ℝ) := by
    funext i
    simp [oneEstep]
  have hA : (0 : Matrix (Fin 1) (Fin 1) ℝ) +
      ((1 : ℝ) * s) • Matrix.diagonal (fun i => 1 / oneEstep.p1 i) =
      s • (1 : Matrix (Fin 1) (Fin 1) ℝ) := by
    rw [hfun, Matrix.diagonal_one, zero_add, one_mul]
  have hinv : ((0 : Matrix (Fin 1) (Fin 1) ℝ) +
      ((1 : ℝ) * s) • Matrix.diagonal (fun i => 1 / oneEstep.p1 i))⁻¹ =
      s⁻¹ • (1 : Matrix (Fin 1) (Fin 1) ℝ) := by
    rw [hA]
    apply Matrix.inv_eq_right_inv
    rw [Matrix.smul_mul, Matrix.mul_smul, smul_smul, Matrix.one_mul, mul_inv_cancel₀ hs, one_smul]
  show (((0 : Matrix (Fin 1) (Fin 1) ℝ) +
      ((1 : ℝ) * s) • Matrix.diagonal (fun i => 1 / oneEstep.p1 i))⁻¹ *
      nonRigidRhsCode onePt oneEstep) 0 0 = s⁻¹
  rw [hinv, Matrix.smul_mul, Matrix.one_mul]
  have hrhs : nonRigidRhsCode onePt oneEstep 0 0 = 1 := by
    simp [nonRigidRhsCode, onePt, oneEstep]
  rw [Matrix.smul_apply, hrhs, smul_eq_mul, mul_one]

/-- C9: the rigid and affine maximization steps never read their sigma2_p
argument, so any two values give identical results, while the non-rigid step
genuinely depends on sigma2_p, shown by a concrete input where two values of
sigma2_p yield different displacement coefficients. -/
theorem cpd_c9_sigma2p_used_only_by_nonrigid {m n d mA nA dA : ℕ}
    (svd : Matrix (Fin (d + 1)) (Fin (d + 1)) ℝ →
      Matrix (Fin (d + 1)) (Fin (d + 1)) ℝ × Matrix (Fin (d + 1)) (Fin (d + 1)) ℝ)
    (source : Matrix (Fin n) (Fin (d + 1)) ℝ) (target : Matrix (Fin m) (Fin (d + 1)) ℝ)
    (e : EstepResult m n (d + 1))
    (sourceA : Matrix (Fin nA) (Fin dA) ℝ) (targetA : Matrix (Fin mA) (Fin dA) ℝ)
    (eA : EstepResult mA nA dA) (s1 s2 : ℝ) :
    RigidCPD.maximizationStep svd source target e s1
        = RigidCPD.maximizationStep svd source target e s2
    ∧ AffineCPD.maximizationStep sourceA targetA eA s1
        = AffineCPD.maximizationStep sourceA targetA eA s2
    ∧ NonRigidCPD.maximizationStep onePt onePt1 oneEstep 1 0 1
        ≠ NonRigidCPD.maximizationStep onePt onePt1 oneEstep 3 0 1 := by
  refine ⟨rfl, rfl, ?_⟩
  intro hEq
  have h : (NonRigidCPD.maximizationStep onePt onePt1 oneEstep 1 0 1).transformation.w 0 0
      = (NonRigidCPD.maximizationStep onePt onePt1 oneEstep 3 0 1).transformation.w 0 0 := by
    rw [hEq]
  rw [nonRigidW_g0_eval 1 one_ne_zero, nonRigidW_g0_eval 3 (by norm_num)] at h
  norm_num at h

theorem twoEstep_dp1_one : (fun i : Fin 2 => 1 / twoEstep.p1 i) = fun _ => (1 : ℝ) := by
  funext i
  simp [twoEstep]

theorem nonRigidRhsCode_two_eval : nonRigidRhsCode 0 twoEstep 0 1 = 0 := by
  simp [nonRigidRhsCode, twoEstep]

/-- C2 evidence: on a concrete square input the displacement coefficients the
code computes (elementwise product of np.diag(1/p1) with px) differ from the
coefficients the claim specifies (matrix product scaling rows of px by 1/p1);
the q field does equal sigma2 for every input, as the claim also states. -/
theorem cpd_c2_nonrigid_rhs_mismatch :
    (NonRigidCPD.maximizationStep 0 0 twoEstep 1 0 1).transformation.w 0 1 = 0
    ∧ nonRigidWSpec 0 twoEstep 1 0 1 0 1 = 2
    ∧ (NonRigidCPD.maximizationStep 0 0 twoEstep 1 0 1).transformation.w
        ≠ nonRigidWSpec 0 twoEstep 1 0 1
    ∧ (∀ {m n : ℕ} (src : Matrix (Fin n) (Fin n) ℝ) (tgt : Matrix (Fin m) (Fin n) ℝ)
        (e : EstepResult m n n) (sP : ℝ) (g : Matrix (Fin n) (Fin n) ℝ) (lmd : ℝ),
        (NonRigidCPD.maximizationStep src tgt e sP g lmd).q
          = (NonRigidCPD.maximizationStep src tgt e sP g lmd).sigma2) := by
  have hA : (0 : Matrix (Fin 2) (Fin 2) ℝ) +
      ((1 : ℝ) * 1) • Matrix.diagonal (fun i => 1 / twoEstep.p1 i) = 1 := by
    rw [twoEstep_dp1_one, Matrix.diagonal_one, zero_add, one_mul, one_smul]
  have hcode : (NonRigidCPD.maximizationStep 0 0 twoEstep 1 0 1).transformation.w 0 1 = 0 := by
    show (((0 : Matrix (Fin 2) (Fin 2) ℝ) +
      ((1 : ℝ) * 1) • Matrix.diagonal (fun i => 1 / twoEstep.p1 i))⁻¹ *
      nonRigidRhsCode 0 twoEstep) 0 1 = 0
    rw [hA, inv_one, Matrix.one_mul, nonRigidRhsCode_two_eval]
  have hspec : nonRigidWSpec 0 twoEstep 1 0 1 0 1 = 2 := by
    show (((0 : Matrix (Fin 2) (Fin 2) ℝ) +
      ((1 : ℝ) * 1) • Matrix.diagonal (fun i => 1 / twoEstep.p1 i))⁻¹ *
      (Matrix.diagonal (fun i => 1 / twoEstep.p1 i) * twoEstep.px - 0)) 0 1 = 2
    rw [hA, inv_one, Matrix.one_mul, twoEstep_dp1_one, Matrix.diagonal_one, sub_zero,
      Matrix.one_mul]
    simp [twoEstep]
  refine ⟨hcode, hspec, ?_, fun src tgt e sP g lmd => rfl⟩
  intro hEq
  have h : (NonRigidCPD.maximizationStep 0 0 twoEstep 1 0 1).transformation.w 0 1
      = nonRigidWSpec 0 twoEstep 1 0 1 0 1 := by
    rw [hEq]
  rw [hcode, hspec] at h
  norm_num at h

theorem kt1_nonneg {n m d : ℕ} (tSource : Matrix (Fin n) (Fin d) ℝ)
    (target : Matrix (Fin m) (Fin d) ℝ) (sigma2 : ℝ) (j : Fin m) :
    0 ≤ kt1 tSource target sigma2 j := by
  unfold kt1 gaussTransform
  apply Finset.sum_nonneg
  intro i _
  positivity

theorem outlierConstant_nonneg (d n m : ℕ) (sigma2 w : ℝ)
    (hs : 0 < sigma2) (hw0 : 0 ≤ w) (hw1 : w < 1) :
    0 ≤ outlierConstant d n m sigma2 w := by
  unfold outlierConstant
  have h1 : (0 : ℝ) ≤ (2 * π * sigma2) ^ ((d : ℝ) * 0.5) :=
    Real.rpow_nonneg (mul_nonneg (by positivity) hs.le) _
  have h2 : (0 : ℝ) ≤ w / (1 - w) := div_nonneg hw0 (by linarith)
  exact div_nonneg (mul_nonneg (mul_nonneg h1 h2) (Nat.cast_nonneg n)) (Nat.cast_nonneg m)

theorem kt1Clamped_pos {n m d : ℕ} (tSource : Matrix (Fin n) (Fin d) ℝ)
    (target : Matrix (Fin m) (Fin d) ℝ) (sigma2 : ℝ) (j : Fin m) :
    0 < kt1Clamped tSource target sigma2 j := by
  unfold kt1Clamped
  by_cases h : kt1 tSource target sigma2 j = 0
  · rw [if_pos h]
    unfold float32Eps
    positivity
  · rw [if_neg h]
    exact lt_of_le_of_ne (kt1_nonneg tSource target sigma2 j) (Ne.symm h)

theorem kt1c_add_c_pos {n m d : ℕ} (tSource : Matrix (Fin n) (Fin d) ℝ)
    (target : Matrix (Fin m) (Fin d) ℝ) (sigma2 w : ℝ)
    (hs : 0 < sigma2) (hw0 : 0 ≤ w) (hw1 : w < 1) (j : Fin m) :
    0 < kt1Clamped tSource target sigma2 j + outlierConstant d n m sigma2 w :=
  add_pos_of_pos_of_nonneg (kt1Clamped_pos tSource target sigma2 j)
    (outlierConstant_nonneg d n m sigma2 w hs hw0 hw1)

/-- C3: the expectation step returns exactly the fields the claim describes:
pt1 = 1 - c * a with a the reciprocal of the clamped kernel sums plus c
(characterized multiplicatively, which requires the denominator to be
nonzero), p1 and px are the weighted kernel-transform sums with reference
target evaluated at the transformed source, n_p is the sum of p1, and for
w = 0 the constant c vanishes and pt1 is identically one. -/
theorem cpd_c3_expectation_step {n m d : ℕ} (tSource : Matrix (Fin n) (Fin d) ℝ)
    (target : Matrix (Fin m) (Fin d) ℝ) (sigma2 w : ℝ)
    (hs : 0 < sigma2) (hw0 : 0 ≤ w) (hw1 : w < 1) :
    (expectationStep tSource target sigma2 w).pt1 = (fun j => 1 -
        outlierConstant d n m sigma2 w *
          (1 / (kt1Clamped tSource target sigma2 j + outlierConstant d n m sigma2 w)))
    ∧ (∀ j, (1 / (kt1Clamped tSource target sigma2 j + outlierConstant d n m sigma2 w)) *
        (kt1Clamped tSource target sigma2 j + outlierConstant d n m sigma2 w) = 1)
    ∧ (expectationStep tSource target sigma2 w).p1 = (fun i =>
        gaussTransform target (Real.sqrt (2 * sigma2))
          (fun j => 1 / (kt1Clamped tSource target sigma2 j + outlierConstant d n m sigma2 w))
          (tSource i))
    ∧ (expectationStep tSource target sigma2 w).px = Matrix.of (fun i r =>
        gaussTransform target (Real.sqrt (2 * sigma2))
          (fun j => (1 / (kt1Clamped tSource target sigma2 j + outlierConstant d n m sigma2 w)) *
            target j r) (tSource i))
    ∧ (expectationStep tSource target sigma2 w).np
        = ∑ i, (expectationStep tSource target sigma2 w).p1 i
    ∧ (w = 0 → outlierConstant d n m sigma2 w = 0 ∧
        (expectationStep tSource target sigma2 w).pt1 = fun _ => 1) := by
  refine ⟨rfl, ?_, rfl, rfl, rfl, ?_⟩
  · intro j
    exact one_div_mul_cancel (ne_of_gt (kt1c_add_c_pos tSource target sigma2 w hs hw0 hw1 j))
  · intro hw
    have hc : outlierConstant d n m sigma2 w = 0 := by
      rw [hw]
      unfold outlierConstant
      simp
    refine ⟨hc, ?_⟩
    funext j
    show (1 : ℝ) - outlierConstant d n m sigma2 w *
      (1 / (kt1Clamped tSource target sigma2 j + outlierConstant d n m sigma2 w)) = 1
    rw [hc, zero_mul, sub_zero]

/-- Witness for C3: the theorem applied at one source point, one target
point, sigma2 = 1 and w = 0. -/
theorem cpd_c3_witness :
    (expectationStep onePt onePt1 1 0).pt1 = fun _ => 1 :=
  ((cpd_c3_expectation_step onePt onePt1 1 0 (by norm_num) (by norm_num)
    (by norm_num)).2.2.2.2.2 rfl).2

/-- C7 counterexample: with zero reference points the kernel sum is exactly
zero, and the code replaces it by the float32 machine epsilon 2 ^ (-23),
which is not the smallest representable positive float32 (2 ^ (-149)). -/
theorem cpd_c7_counterexample :
    kt1Clamped noPts onePt1 1 0 = float32Eps ∧ float32Eps ≠ float32SmallestPos := by
  constructor
  · simp [kt1Clamped, kt1, gaussTransform]
  · intro h
    unfold float32Eps float32SmallestPos at h
    norm_num at h

/-- C7 amended: every exact-zero entry of kt1 is replaced by the strictly
positive float32 machine epsilon, and consequently for every w in [0, 1) and
sigma2 > 0 the denominator kt1 + c is strictly positive, so forming
a = 1 / (kt1 + c) never divides by zero. -/
theorem cpd_c7_denominator_positive {n m d : ℕ} (tSource : Matrix (Fin n) (Fin d) ℝ)
    (target : Matrix (Fin m) (Fin d) ℝ) (sigma2 w : ℝ)
    (hs : 0 < sigma2) (hw0 : 0 ≤ w) (hw1 : w < 1) :
    (∀ j, kt1 tSource target sigma2 j = 0 →
      kt1Clamped tSource target sigma2 j = float32Eps)
    ∧ (0 < float32Eps)
    ∧ (∀ j, 0 < kt1Clamped tSource target sigma2 j + outlierConstant d n m sigma2 w) := by
  refine ⟨fun j hj => ?_, by unfold float32Eps; positivity,
    fun j => kt1c_add_c_pos tSource target sigma2 w hs hw0 hw1 j⟩
  unfold kt1Clamped
  rw [if_pos hj]

/-- Witness for C7: the denominator is positive at the concrete input whose
kernel sum is exactly zero. -/
theorem cpd_c7_witness :
    0 < kt1Clamped noPts onePt1 1 0 + outlierConstant 1 0 1 1 0 :=
  (cpd_c7_denominator_positive noPts onePt1 1 0 (by norm_num) (by norm_num)
    (by norm_num)).2.2 0

/-- C6 counterexample: registering a single point against an identical single
point is a legal input (nonempty point sets of matching dimensionality), yet
the initializer produces an MstepResult whose sigma2 is exactly zero, so the
claimed strict positivity of sigma2 for every produced MstepResult fails; no
numerical floor guards sigma2 anywhere in cpd.py. -/
theorem cpd_c6_counterexample :
    ¬ 0 < (RigidCPD.initialEstimate onePt onePt).sigma2 := by
  have h : (RigidCPD.initialEstimate onePt onePt).sigma2 = 0 := by
    show msnAllCombination onePt onePt = 0
    unfold msnAllCombination sqDist onePt
    simp
  rw [h]
  exact lt_irrefl 0

theorem initialEstimate_sigma2_eq {n m d : ℕ} (source : Matrix (Fin n) (Fin (d + 1)) ℝ)
    (target : Matrix (Fin m) (Fin (d + 1)) ℝ) :
    (RigidCPD.initialEstimate source target).sigma2 = msnAllCombination source target :=
  rfl

/-- C6 amended: the initializer's sigma2 is nonnegative and is strictly
positive whenever some source point differs from some target point; the
maximization steps apply no positivity floor, and coincident point sets give
sigma2 = 0 (see the counterexample). -/
theorem cpd_c6_initializer_sigma2_pos {n m d : ℕ} (source : Matrix (Fin n) (Fin (d + 1)) ℝ)
    (target : Matrix (Fin m) (Fin (d + 1)) ℝ)
    (hne : ∃ i j, source i ≠ target j) :
    0 < (RigidCPD.initialEstimate source target).sigma2 := by
  obtain ⟨i0, j0, hij⟩ := hne
  have hr : ∃ r, source i0 r ≠ target j0 r := by
    by_contra hall
    push_neg at hall
    exact hij (funext hall)
  obtain ⟨r0, hr0⟩ := hr
  rw [initialEstimate_sigma2_eq]
  unfold msnAllCombination
  apply div_pos
  · apply Finset.sum_pos'
    · intro i _
      apply Finset.sum_nonneg
      intro j _
      unfold sqDist
      exact Finset.sum_nonneg fun r _ => sq_nonneg _
    · refine ⟨i0, Finset.mem_univ i0, ?_⟩
      apply Finset.sum_pos'
      · intro j _
        unfold sqDist
        exact Finset.sum_nonneg fun r _ => sq_nonneg _
      · refine ⟨j0, Finset.mem_univ j0, ?_⟩
        unfold sqDist
        apply Finset.sum_pos'
        · intro r _
          exact sq_nonneg _
        · refine ⟨r0, Finset.mem_univ r0, ?_⟩
          exact lt_of_le_of_ne (sq_nonneg _)
            (Ne.symm (pow_ne_zero 2 (sub_ne_zero.mpr hr0)))
  · have hn : (0 : ℝ) < n := by
      exact_mod_cast Fin.pos i0
    have hm : (0 : ℝ) < m := by
      exact_mod_cast Fin.pos j0
    have hd1 : (0 : ℝ) < (d : ℝ) + 1 := by positivity
    push_cast
    exact mul_pos (mul_pos hd1 hn) hm

/-- Witness for C6: the amended positivity at one source point 0 and one
target point 1. -/
theorem cpd_c6_witness :
    0 < (RigidCPD.initialEstimate onePt onePt1).sigma2 := by
  apply cpd_c6_initializer_sigma2_pos onePt onePt1
  refine ⟨0, 0, fun h => ?_⟩
  have h0 := congrFun h 0
  unfold onePt onePt1 at h0
  norm_num at h0

theorem registrationIterFlow_ne_valueError (source target : NpPoints) :
    ∀ k, registrationIterFlow source target k ≠ Except.error PyError.valueError
  | 0 => by
    intro h
    exact Except.noConfusion h
  | k + 1 => by
    rw [registrationIterFlow]
    unfold estepAssertFlow
    by_cases hc : source.ndim = 2 ∧ target.ndim = 2
    · rw [if_pos hc]
      show registrationIterFlow source target k ≠ Except.error PyError.valueError
      exact registrationIterFlow_ne_valueError source target k
    · rw [if_neg hc]
      intro h
      have h2 : (Except.error PyError.assertionError : Except PyError Unit)
          = Except.error PyError.valueError := h
      simp at h2

theorem registrationIterFlow_ok (source target : NpPoints)
    (hs : source.ndim = 2) (ht : target.ndim = 2) :
    ∀ k, registrationIterFlow source target k = Except.ok ()
  | 0 => rfl
  | k + 1 => by
    rw [registrationIterFlow]
    unfold estepAssertFlow
    rw [if_pos ⟨hs, ht⟩]
    show registrationIterFlow source target k = Except.ok ()
    exact registrationIterFlow_ok source target hs ht k

theorem registrationCpdFlow_recognized (name : String) (source target : NpPoints) (k : ℕ)
    (h : name = "rigid" ∨ name = "affine" ∨ name = "nonrigid") :
    registrationCpdFlow name source target k
      = (npShapeSnd source >>= fun _ => registrationIterFlow source target k) := by
  unfold registrationCpdFlow dispatchTfType
  rcases h with h | h | h
  · rw [if_pos h]
    exact rfl
  · by_cases h1 : name = "rigid"
    · rw [if_pos h1]
      exact rfl
    · rw [if_neg h1, if_pos h]
      exact rfl
  · by_cases h1 : name = "rigid"
    · rw [if_pos h1]
      exact rfl
    · rw [if_neg h1]
      by_cases h2 : name = "affine"
      · rw [if_pos h2]
        exact rfl
      · rw [if_neg h2, if_pos h]
        exact rfl

theorem registrationCpdFlow_unrecognized (name : String) (source target : NpPoints) (k : ℕ)
    (h1 : ¬ name = "rigid") (h2 : ¬ name = "affine") (h3 : ¬ name = "nonrigid") :
    registrationCpdFlow name source target k = Except.error PyError.valueError := by
  unfold registrationCpdFlow dispatchTfType
  rw [if_neg h1, if_neg h2, if_neg h3]
  exact rfl

/-- C8 counterexample: with a valid variant name, a two-dimensional source
and a one-dimensional target, the registration does not fail with the
invalid-argument ValueError the claim requires: with max_iteration = 1 it
fails with the AssertionError of the expectation-step assert, raised inside
the first iteration (after the initializer already ran), and with
max_iteration = 0 it does not fail at all. -/
theorem cpd_c8_counterexample :
    registrationCpdFlow "rigid" (NpPoints.dim2 [[0]]) (NpPoints.dim1 [0]) 1
        = Except.error PyError.assertionError
    ∧ registrationCpdFlow "rigid" (NpPoints.dim2 [[0]]) (NpPoints.dim1 [0]) 0
        = Except.ok ()
    ∧ PyError.assertionError ≠ PyError.valueError := by
  refine ⟨rfl, rfl, ?_⟩
  intro h
  exact PyError.noConfusion h

/-- C8 amended: the registration entry point raises the invalid-argument
ValueError exactly when the variant name is not one of the three recognized
names (and then before any other work); for a recognized name and
two-dimensional source and target arrays no modelled error is raised at all.
Non-two-dimensional inputs fail later and differently: through the
IndexError of the initializer's shape read or the AssertionError of the
expectation-step assert inside the first iteration (see the counterexample),
and matching dimensionality is not validated at entry. -/
theorem cpd_c8_value_error_iff (name : String) (source target : NpPoints) (k : ℕ) :
    (registrationCpdFlow name source target k = Except.error PyError.valueError
      ↔ ¬ (name = "rigid" ∨ name = "affine" ∨ name = "nonrigid"))
    ∧ ((name = "rigid" ∨ name = "affine" ∨ name = "nonrigid") →
        source.ndim = 2 → target.ndim = 2 →
        registrationCpdFlow name source target k = Except.ok ()) := by
  constructor
  · constructor
    · intro hflow hrec
      rw [registrationCpdFlow_recognized name source target k hrec] at hflow
      cases source with
      | dim1 v =>
        have h2 : (Except.error PyError.indexError : Except PyError Unit)
            = Except.error PyError.valueError := hflow
        simp at h2
      | dim2 rows =>
        have h2 : registrationIterFlow (NpPoints.dim2 rows) target k
            = Except.error PyError.valueError := hflow
        exact registrationIterFlow_ne_valueError _ target k h2
    · intro hrec
      push_neg at hrec
      exact registrationCpdFlow_unrecognized name source target k hrec.1 hrec.2.1 hrec.2.2
  · intro hrec hs ht
    rw [registrationCpdFlow_recognized name source target k hrec]
    cases source with
    | dim1 v => simp [NpPoints.ndim] at hs
    | dim2 rows =>
      show registrationIterFlow (NpPoints.dim2 rows) target k = Except.ok ()
      exact registrationIterFlow_ok _ target hs ht k

/-- Witness for C8: a recognized name with two-dimensional matching inputs
completes without a modelled error. -/
theorem cpd_c8_witness :
    registrationCpdFlow "affine" (NpPoints.dim2 [[0]]) (NpPoints.dim2 [[1]]) 3
      = Except.ok () :=
  (cpd_c8_value_error_iff "affine" (NpPoints.dim2 [[0]]) (NpPoints.dim2 [[1]]) 3).2
    (Or.inr (Or.inl rfl)) rfl rfl

theorem applySetSources_beta {d : ℕ} :
    ∀ (l : List (Σ n : ℕ, Matrix (Fin n) (Fin d) ℝ)) (st : NonRigidCPDState d),
      (NonRigidCPD.applySetSources st l).beta = st.beta
  | [], _ => rfl
  | x :: xs, st => by
    show (NonRigidCPD.applySetSources (NonRigidCPD.setSource st x) xs).beta = st.beta
    exact applySetSources_beta xs (NonRigidCPD.setSource st x)

theorem applySetSources_inv {d : ℕ} :
    ∀ (l : List (Σ n : ℕ, Matrix (Fin n) (Fin d) ℝ)) (st : NonRigidCPDState d),
      st.g = (st.source.map fun s => ⟨s.1, gaussianKernel s.2 st.beta⟩) →
      (NonRigidCPD.applySetSources st l).g
        = ((NonRigidCPD.applySetSources st l).source.map
            fun s => ⟨s.1, gaussianKernel s.2 (NonRigidCPD.applySetSources st l).beta⟩)
  | [], _, h => h
  | x :: xs, st, _ => by
    show (NonRigidCPD.applySetSources (NonRigidCPD.setSource st x) xs).g
      = ((NonRigidCPD.applySetSources (NonRigidCPD.setSource st x) xs).source.map
          fun s => ⟨s.1, gaussianKernel s.2
            (NonRigidCPD.applySetSources (NonRigidCPD.setSource st x) xs).beta⟩)
    exact applySetSources_inv xs (NonRigidCPD.setSource st x) rfl

/-- C10: for every NonRigidCPD state built by the constructor and any finite
sequence of set_source calls, whenever the source is set the cached
smoothness kernel matrix equals gaussian_kernel(current source, beta), so
every later use of the cached matrix is consistent with the current source. -/
theorem cpd_c10_kernel_tracks_source {d : ℕ}
    (source0 : Option (Σ n : ℕ, Matrix (Fin n) (Fin d) ℝ)) (beta lmd : ℝ)
    (sources : List (Σ n : ℕ, Matrix (Fin n) (Fin d) ℝ))
    (s : Σ n : ℕ, Matrix (Fin n) (Fin d) ℝ)
    (hset : (NonRigidCPD.applySetSources (NonRigidCPD.init source0 beta lmd) sources).source
      = some s) :
    (NonRigidCPD.applySetSources (NonRigidCPD.init source0 beta lmd) sources).g
      = some ⟨s.1, gaussianKernel s.2 beta⟩ := by
  have hbeta := applySetSources_beta sources (NonRigidCPD.init source0 beta lmd)
  have hinv := applySetSources_inv sources (NonRigidCPD.init source0 beta lmd) rfl
  rw [hinv, hset, hbeta]
  rfl

/-- Witness for C10: one construction followed by one set_source call. -/
theorem cpd_c10_witness :
    (NonRigidCPD.applySetSources (NonRigidCPD.init (some ⟨1, onePt⟩) 2 2) [⟨1, onePt1⟩]).g
      = some ⟨1, gaussianKernel onePt1 2⟩ :=
  cpd_c10_kernel_tracks_source (some ⟨1, onePt⟩) 2 2 [⟨1, onePt1⟩] ⟨1, onePt1⟩ rfl
